import Mathlib

/-!
Verification of the SensAI calendar/scheduling frontend.

Shallow embedding of the two React components:

* `CourseScheduler` (src/app/school/admin/[id]/courses/[courseId]/calendar/page.tsx):
  the schedule-request builder with its weekend/weekday-exclusion coupling and the
  generate (`handleSubmit`) / persist (`handlePersist`) fetch flows.
* `SavedScheduleCard` (the saved-schedule renderer): sorting of fetched days,
  initial day selection, clamped prev/next navigation, Today/Tomorrow/Upcoming jumps.

Dates are ISO `yyyy-MM-dd` strings throughout; the JavaScript comparisons
`a.date.localeCompare(b.date)` and `d.date > todayStr` on such strings are the
lexicographic string order, embedded as Lean's `String` order.  React state updates
inside one event handler are batched and the `useEffect` keyed on `includeWeekends`
re-runs exactly when that value changed between renders; the embedding composes each
handler with the effect guarded by that change test.
-/

namespace SensAI

/-- Interface `ScheduleItem` from the TSX: one task scheduled on a day. -/
structure ScheduleItem where
  type : String
  task_id : Nat
  milestone_id : Nat
  title : String
  duration_minutes : Nat
  notes : Option String
deriving DecidableEq, Repr

/-- Interface `ScheduleDay` from the TSX: one day's entry in the schedule response. -/
structure ScheduleDay where
  date : String
  items : List ScheduleItem
  summary : Option String
deriving DecidableEq, Repr

/-- JavaScript `[...new Set(l)]`: deduplicate keeping the first occurrence of
each element, in insertion order.  `seen` accumulates elements already emitted. -/
def jsSetDedupAux (seen : List Nat) : List Nat → List Nat
  | [] => []
  | x :: xs => if x ∈ seen then jsSetDedupAux seen xs else x :: jsSetDedupAux (x :: seen) xs

/-- Spread of a JavaScript `Set` built from a list. -/
def jsSetDedup (l : List Nat) : List Nat := jsSetDedupAux [] l

/-- The `useState` cells of `CourseScheduler` that the schedule logic touches
(the month shown by the calendar grid and the loading flags are pure UI). -/
structure BuilderState where
  startDate : String
  includeWeekends : Bool
  excludeWeekdays : List Nat
  excludeDates : List String
  hoursPerDay : Nat
  daysPerWeek : Nat
  timezone : String
  /-- Field `scheduledTasks : ProcessedSchedule`, the date-keyed map, as an association
  list in JavaScript object key-insertion order. -/
  scheduledTasks : List (String × ScheduleDay)
deriving DecidableEq, Repr

/-- The `useEffect` keyed on `includeWeekends`:
`includeWeekends ? prev.filter(d => d !== 0 && d !== 6) : [...new Set([...prev, 0, 6])]`. -/
def weekendEffect (s : BuilderState) : BuilderState :=
  if s.includeWeekends then
    { s with excludeWeekdays := s.excludeWeekdays.filter (fun d => d ≠ 0 && d ≠ 6) }
  else
    { s with excludeWeekdays := jsSetDedup (s.excludeWeekdays ++ [0, 6]) }

/-- React re-runs the `includeWeekends` effect after a handler only when the
`includeWeekends` dependency actually changed. -/
def applyEffectIfChanged (oldIW : Bool) (s : BuilderState) : BuilderState :=
  if s.includeWeekends = oldIW then s else weekendEffect s

/-- The `Include Weekends` switch: `onClick={() => setIncludeWeekends(!includeWeekends)}`,
followed by the effect (which always fires, the value always changes). -/
def toggleIncludeWeekends (s : BuilderState) : BuilderState :=
  applyEffectIfChanged s.includeWeekends { s with includeWeekends := !s.includeWeekends }

/-- Handler `handleWeekdayToggle(dayIndex)`:
checks `excludeWeekdays.includes(dayIndex)`; when an excluded weekend day (0 or 6)
is re-included it also calls `setIncludeWeekends(true)`; membership is flipped by
`prev.filter(d => d !== dayIndex)` or `[...prev, dayIndex]`; the weekend effect
then re-runs iff `includeWeekends` changed. -/
def handleWeekdayToggle (s : BuilderState) (dayIndex : Nat) : BuilderState :=
  let isExcluded := dayIndex ∈ s.excludeWeekdays
  let s1 : BuilderState :=
    { s with
      includeWeekends :=
        if isExcluded ∧ (dayIndex = 0 ∨ dayIndex = 6) then true else s.includeWeekends,
      excludeWeekdays :=
        if isExcluded then s.excludeWeekdays.filter (fun d => d ≠ dayIndex)
        else s.excludeWeekdays ++ [dayIndex] }
  applyEffectIfChanged s.includeWeekends s1

/-- Handler `handleDateClick(day)`: flips membership of the formatted date string in
`excludeDates`; `includeWeekends` is untouched, so the weekend effect does not re-run. -/
def handleDateClick (s : BuilderState) (dateStr : String) : BuilderState :=
  { s with excludeDates :=
      if dateStr ∈ s.excludeDates then s.excludeDates.filter (fun d => d ≠ dateStr)
      else s.excludeDates ++ [dateStr] }

/-- The `useState` initial values of `CourseScheduler`, before the mount effects run.
`startDate` is set to today's date by its own effect; it is irrelevant to the claims
and kept at the empty-string initial value. -/
def rawInitState : BuilderState :=
  { startDate := ""
    includeWeekends := false
    excludeWeekdays := [0, 6]
    excludeDates := []
    hoursPerDay := 2
    daysPerWeek := 5
    timezone := "UTC"
    scheduledTasks := [] }

/-- Component state after mount: the `includeWeekends` effect runs once on mount. -/
def initState : BuilderState := weekendEffect rawInitState

/-- States reachable from the mounted component by the three toggle operations. -/
inductive Reachable : BuilderState → Prop where
  | init : Reachable initState
  | toggleWeekends {s : BuilderState} : Reachable s → Reachable (toggleIncludeWeekends s)
  | toggleWeekday {s : BuilderState} (i : Nat) : Reachable s → Reachable (handleWeekdayToggle s i)
  | toggleDate {s : BuilderState} (d : String) : Reachable s → Reachable (handleDateClick s d)

/-- Assignment `acc[day.date] = day` on a JavaScript object: overwrite in place when the key
exists (keys keep first-insertion order), otherwise append. -/
def insertDay (acc : List (String × ScheduleDay)) (day : ScheduleDay) :
    List (String × ScheduleDay) :=
  if acc.any (fun p => p.1 = day.date) then
    acc.map (fun p => if p.1 = day.date then (p.1, day) else p)
  else
    acc ++ [(day.date, day)]

/-- Reduction `(data.schedule?.days || []).reduce((acc, day) => { acc[day.date] = day; return acc; }, {})`. -/
def buildScheduleMap (days : List ScheduleDay) : List (String × ScheduleDay) :=
  days.foldl insertDay []

/-- Outcome of one `fetch` round-trip: `failure` covers a rejected promise, a thrown
error and a non-2xx status (the code turns the latter into a throw); `success` carries
`data.schedule?.days || []`. -/
inductive FetchOutcome where
  | failure
  | success (days : List ScheduleDay)
deriving DecidableEq, Repr

/-- Handler `handleSubmit` (generate): clears `scheduledTasks` (`setScheduledTasks({})`) before the
fetch; on success stores the rebuilt map; on failure only logs (the cleared map
stands).  The loading flag round-trips and is omitted. -/
def handleSubmit (s : BuilderState) (outcome : FetchOutcome) : BuilderState :=
  let s1 : BuilderState := { s with scheduledTasks := [] }
  match outcome with
  | .failure => s1
  | .success days => { s1 with scheduledTasks := buildScheduleMap days }

/-- Handler `handlePersist`: no clearing; on success stores the rebuilt map; on failure only
logs, leaving all state as it was.  The saving flag round-trips and is omitted. -/
def handlePersist (s : BuilderState) (outcome : FetchOutcome) : BuilderState :=
  match outcome with
  | .failure => s
  | .success days => { s with scheduledTasks := buildScheduleMap days }

/-- JavaScript `Array.prototype.findIndex`: index of the first element satisfying `p`, `-1` when
none does. -/
def jsFindIndex {α : Type} (p : α → Bool) : List α → Int
  | [] => -1
  | x :: xs =>
    if p x then 0
    else if jsFindIndex p xs = -1 then -1 else jsFindIndex p xs + 1

/-- The load effect of `SavedScheduleCard` on a 2xx response:
`(data.schedule?.days || []).slice().sort((a, b) => a.date.localeCompare(b.date))`.
`Array.prototype.sort` is stable and `localeCompare` on ISO `yyyy-MM-dd` strings is
the lexicographic string order. -/
def loadDays (respDays : List ScheduleDay) : List ScheduleDay :=
  respDays.mergeSort (fun a b => decide (a.date ≤ b.date))

/-- Initial selection in the load effect:
`let idx = fetchedDays.findIndex(d => d.date === today);`
`if (idx === -1) { idx = fetchedDays.findIndex(d => d.date > today); }`
`setCurrentIndex(Math.max(0, idx));`. -/
def initialIndex (days : List ScheduleDay) (today : String) : Nat :=
  let idx := jsFindIndex (fun d => decide (d.date = today)) days
  let idx2 := if idx = -1 then jsFindIndex (fun d => decide (today < d.date)) days else idx
  (max 0 idx2).toNat

/-- The header label of `SavedScheduleCard`, as an enumeration: the source renders
the strings "No schedule", "Today", "Tomorrow" or `format(dt, "EEE, MMM d")`; for a
valid ISO date string, `isToday(parseISO(d))` holds iff `d` equals today's
`yyyy-MM-dd` string, and likewise for `isTomorrow`. -/
inductive HeaderLabel where
  | noSchedule
  | todayLabel
  | tomorrowLabel
  | dateLabel (date : String)
deriving DecidableEq, Repr

/-- Memo `headerLabel`: `!currentDay → "No schedule"`, today/tomorrow checks, else
the formatted date. -/
def headerLabel (currentDay : Option ScheduleDay) (today tomorrow : String) : HeaderLabel :=
  match currentDay with
  | none => .noSchedule
  | some d =>
    if d.date = today then .todayLabel
    else if d.date = tomorrow then .tomorrowLabel
    else .dateLabel d.date

/-- Source `const currentDay = days[currentIndex];` (JavaScript yields `undefined` out of range). -/
def currentDayOf (days : List ScheduleDay) (i : Nat) : Option ScheduleDay := days[i]?

/-- Source `const canPrev = currentIndex > 0;`. -/
def canPrev (i : Nat) : Bool := 0 < i

/-- Source `const canNext = currentIndex < Math.max(0, days.length - 1);` (over JavaScript
numbers, so `days.length - 1` is `-1` on the empty list). -/
def canNext (days : List ScheduleDay) (i : Nat) : Bool :=
  (i : Int) < max 0 ((days.length : Int) - 1)

/-- The previous-day button: `onClick={() => canPrev && setCurrentIndex(i => i - 1)}`
(the button is also `disabled` when `!canPrev`). -/
def prevClick (i : Nat) : Nat :=
  if canPrev i then i - 1 else i

/-- The next-day button: `onClick={() => canNext && setCurrentIndex(i => i + 1)}`
(the button is also `disabled` when `!canNext`). -/
def nextClick (days : List ScheduleDay) (i : Nat) : Nat :=
  if canNext days i then i + 1 else i

/-- Shared shape of the Today / Tomorrow / Upcoming buttons:
`if (!days.length) return;`
`const idx = days.findIndex(pred);`
`setCurrentIndex(Math.max(0, idx === -1 ? 0 : idx));`. -/
def jsJump (p : ScheduleDay → Bool) (days : List ScheduleDay) (i : Nat) : Nat :=
  if days.length = 0 then i
  else
    let idx := jsFindIndex p days
    (max 0 (if idx = -1 then 0 else idx)).toNat

/-- The Today button: predicate `d.date === todayStr`. -/
def jumpToday (days : List ScheduleDay) (i : Nat) (today : String) : Nat :=
  jsJump (fun d => decide (d.date = today)) days i

/-- The Tomorrow button: predicate `d.date === tomorrowStr` where `tomorrowStr` is
today plus 86400000 ms, formatted. -/
def jumpTomorrow (days : List ScheduleDay) (i : Nat) (tomorrow : String) : Nat :=
  jsJump (fun d => decide (d.date = tomorrow)) days i

/-- The Upcoming button: predicate `d.date > todayStr`. -/
def jumpUpcoming (days : List ScheduleDay) (i : Nat) (today : String) : Nat :=
  jsJump (fun d => decide (today < d.date)) days i

/-- A concrete schedule day used to instantiate the theorems. -/
def sampleDay : ScheduleDay := { date := "2025-01-06", items := [], summary := none }

/-- A second concrete schedule day, one date later. -/
def sampleDay2 : ScheduleDay := { date := "2025-01-07", items := [], summary := none }

/-- A builder state holding one fetched schedule day. -/
def loadedState : BuilderState :=
  { rawInitState with scheduledTasks := [("2025-01-06", sampleDay)] }

/-- The state reached by switching weekends on and then clicking the Sunday toggle:
the toggle adds 0 back to `excludeWeekdays` while `includeWeekends` stays `true`
(the weekend effect does not re-run because `includeWeekends` did not change). -/
def weekendReExcludedState : BuilderState :=
  handleWeekdayToggle (toggleIncludeWeekends initState) 0

/-! ### Helper lemmas about the JavaScript primitives -/

theorem mem_jsSetDedupAux {a : Nat} :
    ∀ {l seen : List Nat}, a ∈ jsSetDedupAux seen l ↔ a ∈ l ∧ a ∉ seen := by
  intro l
  induction l with
  | nil => intro seen; simp [jsSetDedupAux]
  | cons x xs ih =>
    intro seen
    by_cases hx : x ∈ seen
    · rw [jsSetDedupAux, if_pos hx, ih]
      constructor
      · rintro ⟨hmem, hseen⟩; exact ⟨List.mem_cons_of_mem _ hmem, hseen⟩
      · rintro ⟨hmem, hseen⟩
        rcases List.mem_cons.mp hmem with rfl | h
        · exact absurd hx hseen
        · exact ⟨h, hseen⟩
    · rw [jsSetDedupAux, if_neg hx]
      simp only [List.mem_cons, ih, List.mem_cons]
      constructor
      · rintro (rfl | ⟨hmem, hseen⟩)
        · exact ⟨Or.inl rfl, hx⟩
        · exact ⟨Or.inr hmem, fun h => hseen (Or.inr h)⟩
      · rintro ⟨rfl | hmem, hseen⟩
        · exact Or.inl rfl
        · by_cases hax : a = x
          · exact Or.inl hax
          · exact Or.inr ⟨hmem, fun h => by rcases h with h | h <;> [exact hax h; exact hseen h]⟩

theorem mem_jsSetDedup {a : Nat} {l : List Nat} : a ∈ jsSetDedup l ↔ a ∈ l := by
  rw [jsSetDedup, mem_jsSetDedupAux]; simp

theorem nodup_jsSetDedupAux : ∀ (l seen : List Nat), (jsSetDedupAux seen l).Nodup := by
  intro l
  induction l with
  | nil => intro seen; simp [jsSetDedupAux]
  | cons x xs ih =>
    intro seen
    by_cases hx : x ∈ seen
    · rw [jsSetDedupAux, if_pos hx]; exact ih seen
    · rw [jsSetDedupAux, if_neg hx]
      refine List.nodup_cons.mpr ⟨?_, ih (x :: seen)⟩
      intro hmem
      exact (mem_jsSetDedupAux.mp hmem).2 (List.mem_cons_self _ _)

theorem nodup_jsSetDedup (l : List Nat) : (jsSetDedup l).Nodup :=
  nodup_jsSetDedupAux l []

/-- Characterization of `findIndex`: either no element matches and the result is `-1`,
or the result is the least index of a matching element. -/
theorem jsFindIndex_cases {α : Type} (p : α → Bool) (l : List α) :
    (jsFindIndex p l = -1 ∧ ∀ x ∈ l, p x = false) ∨
    (∃ n : Nat, jsFindIndex p l = (n : Int) ∧
      ∃ hn : n < l.length, p (l.get ⟨n, hn⟩) = true ∧
        ∀ m (hm : m < l.length), m < n → p (l.get ⟨m, hm⟩) = false) := by
  induction l with
  | nil => exact Or.inl ⟨rfl, by simp⟩
  | cons x xs ih =>
    by_cases hx : p x = true
    · refine Or.inr ⟨0, ?_, ?_⟩
      · simp [jsFindIndex, hx]
      · exact ⟨by simp, by simpa using hx, fun m hm hm0 => absurd hm0 (Nat.not_lt_zero m)⟩
    · have hx' : p x = false := by simpa using hx
      rcases ih with ⟨h1, h2⟩ | ⟨n, hn, hlt, hp, hmin⟩
      · refine Or.inl ⟨by simp [jsFindIndex, hx', h1], ?_⟩
        intro y hy
        rcases List.mem_cons.mp hy with rfl | hy'
        · exact hx'
        · exact h2 y hy'
      · refine Or.inr ⟨n + 1, ?_, ?_⟩
        · have hne : jsFindIndex p xs ≠ -1 := by rw [hn]; omega
          rw [jsFindIndex, if_neg (by simp [hx']), if_neg hne, hn]
          push_cast
          ring
        · refine ⟨by simpa using Nat.succ_lt_succ hlt, ?_, ?_⟩
          · simpa using hp
          · intro m hm hmn
            cases m with
            | zero => simpa using hx'
            | succ k =>
              have hk : k < xs.length := by simpa using hm
              simpa using hmin k hk (by omega)

theorem jsJump_empty (p : ScheduleDay → Bool) (i : Nat) : jsJump p [] i = i := by
  simp [jsJump]

theorem jsJump_nomatch {p : ScheduleDay → Bool} {days : List ScheduleDay} (i : Nat)
    (h : ∀ d ∈ days, p d = false) : jsJump p days i = 0 ∨ days = [] := by
  cases days with
  | nil => exact Or.inr rfl
  | cons x xs =>
    left
    rcases jsFindIndex_cases p (x :: xs) with ⟨h1, _⟩ | ⟨n, hn, hlt, hp, _⟩
    · simp [jsJump, h1]
    · exact absurd (h _ (List.get_mem _ _ hlt))
        (by simp only [List.get_eq_getElem] at hp; simp [hp])

theorem jsJump_match {p : ScheduleDay → Bool} {days : List ScheduleDay} (i : Nat)
    (h : ∃ d ∈ days, p d = true) :
    ∃ hn : jsJump p days i < days.length,
      p (days.get ⟨jsJump p days i, hn⟩) = true ∧
        ∀ m (hm : m < days.length), m < jsJump p days i → p (days.get ⟨m, hm⟩) = false := by
  rcases jsFindIndex_cases p days with ⟨_, hall⟩ | ⟨n, hn, hlt, hp, hmin⟩
  · rcases h with ⟨d, hd, hpd⟩
    exact absurd (hall d hd) (by simp [hpd])
  · have hlen : days.length ≠ 0 := by intro h0; rw [List.length_eq_zero] at h0; subst h0; simp at hlt
    have : jsJump p days i = n := by
      rw [jsJump, if_neg hlen, hn]
      have : (n : Int) ≠ -1 := by omega
      simp [this]
    rw [this]
    exact ⟨hlt, hp, hmin⟩

/-! ### Builder theorems -/

/-- C1 counterexample: `handleSubmit` executes `setScheduledTasks({})` before the
fetch, so a failed generate call does not leave the previously rendered schedule
index as it was: from a state holding one rendered day, failure leaves the index
empty. -/
theorem failedGenerate_clears_schedule :
    (handleSubmit loadedState FetchOutcome.failure).scheduledTasks ≠
      loadedState.scheduledTasks := by
  simp [handleSubmit, loadedState]

/-- C1 (amended): a failed persist call leaves the whole state exactly as it was
and only logs; a failed generate call leaves the schedule index empty — it is
cleared unconditionally before the fetch and the error path only logs — with every
other field unchanged; in neither flow does a partial merge occur. -/
theorem failedCall_spec (s : BuilderState) :
    handlePersist s FetchOutcome.failure = s ∧
    handleSubmit s FetchOutcome.failure = { s with scheduledTasks := [] } :=
  ⟨rfl, rfl⟩

/-- C2 counterexample: the state reached by toggling weekends on and then clicking
the Sunday button is reachable, has `includeWeekends = true`, and has weekday 0 in
`excludeWeekdays` — the claimed always-bidirectional coupling fails. -/
theorem reachable_violates_weekend_coupling :
    Reachable weekendReExcludedState ∧
    weekendReExcludedState.includeWeekends = true ∧
    0 ∈ weekendReExcludedState.excludeWeekdays :=
  ⟨Reachable.toggleWeekday 0 (Reachable.toggleWeekends Reachable.init),
   by decide, by decide⟩

/-- C2 (amended): in every state reachable by the toggle operations the coupling
holds in the off direction — `includeWeekends = false` implies both 0 and 6 are in
`excludedWeekdays` — but not bidirectionally: excluding a weekend day while
`includeWeekends` is on leaves `includeWeekends = true` with that day excluded. -/
theorem weekendsOff_invariant (s : BuilderState) (hs : Reachable s) :
    s.includeWeekends = false →
      0 ∈ s.excludeWeekdays ∧ 6 ∈ s.excludeWeekdays := by
  induction hs with
  | init => intro _; decide
  | @toggleWeekends s' hr ih =>
    intro hoff
    rcases hiw : s'.includeWeekends with _ | _
    · exfalso
      simp [toggleIncludeWeekends, applyEffectIfChanged, weekendEffect, hiw] at hoff
    · simp only [toggleIncludeWeekends, applyEffectIfChanged, weekendEffect, hiw] at *
      simp at hoff ⊢
      exact ⟨mem_jsSetDedup.mpr (by simp), mem_jsSetDedup.mpr (by simp)⟩
  | @toggleWeekday s' i hr ih =>
    intro hoff
    by_cases hmem : i ∈ s'.excludeWeekdays
    · by_cases hwk : i = 0 ∨ i = 6
      · exfalso
        have : (handleWeekdayToggle s' i).includeWeekends = true := by
          simp only [handleWeekdayToggle, applyEffectIfChanged, weekendEffect]
          simp only [if_pos (And.intro hmem hwk)]
          split
          · simp_all
          · split <;> simp_all
        rw [hoff] at this
        exact Bool.false_ne_true this
      · have hiw : (handleWeekdayToggle s' i).includeWeekends = s'.includeWeekends := by
          simp only [handleWeekdayToggle, applyEffectIfChanged]
          simp [hmem, hwk]
        have hoff' : s'.includeWeekends = false := by rw [← hiw, hoff]
        have ⟨h0, h6⟩ := ih hoff'
        have hi0 : i ≠ 0 := fun h => hwk (Or.inl h)
        have hi6 : i ≠ 6 := fun h => hwk (Or.inr h)
        simp only [handleWeekdayToggle, applyEffectIfChanged]
        simp [hmem, hwk, List.mem_filter, h0, h6, Ne.symm hi0, Ne.symm hi6]
    · have hcond : ¬ (i ∈ s'.excludeWeekdays ∧ (i = 0 ∨ i = 6)) := fun h => hmem h.1
      have hiw : (handleWeekdayToggle s' i).includeWeekends = s'.includeWeekends := by
        simp only [handleWeekdayToggle, applyEffectIfChanged]
        simp [hcond]
      have hoff' : s'.includeWeekends = false := by rw [← hiw, hoff]
      have ⟨h0, h6⟩ := ih hoff'
      simp only [handleWeekdayToggle, applyEffectIfChanged]
      simp [hmem, hcond, List.mem_append, h0, h6]
  | @toggleDate s' d hr ih =>
    intro hoff
    simp only [handleDateClick] at hoff ⊢
    exact ih hoff

/-- Witness for the amended C2 theorem at the freshly mounted state. -/
theorem weekendsOff_invariant_witness :
    0 ∈ initState.excludeWeekdays ∧ 6 ∈ initState.excludeWeekdays :=
  weekendsOff_invariant initState Reachable.init (by decide)

/-- C4: re-including a currently excluded weekend day (index 0 or 6) removes it
from `excludeWeekdays` and forces `includeWeekends` to `true`; asymmetrically,
excluding a weekend day leaves `includeWeekends` unchanged (never forces it
`false`). -/
theorem handleWeekdayToggle_weekend_spec (s : BuilderState) (i : Nat)
    (hi : i = 0 ∨ i = 6) :
    (i ∈ s.excludeWeekdays →
      (handleWeekdayToggle s i).includeWeekends = true ∧
        i ∉ (handleWeekdayToggle s i).excludeWeekdays) ∧
    (i ∉ s.excludeWeekdays →
      (handleWeekdayToggle s i).includeWeekends = s.includeWeekends) := by
  constructor
  · intro hmem
    simp only [handleWeekdayToggle, applyEffectIfChanged, weekendEffect]
    simp only [if_pos (And.intro hmem hi)]
    cases hiw : s.includeWeekends <;> simp [hiw, hmem, List.mem_filter]
  · intro hmem
    have hcond : ¬ (i ∈ s.excludeWeekdays ∧ (i = 0 ∨ i = 6)) := fun h => hmem h.1
    simp only [handleWeekdayToggle, applyEffectIfChanged]
    simp [hcond]

/-- Witness for C4 at the mounted state, re-including Sunday. -/
theorem handleWeekdayToggle_weekend_spec_witness :
    (handleWeekdayToggle initState 0).includeWeekends = true ∧
    0 ∉ (handleWeekdayToggle initState 0).excludeWeekdays :=
  (handleWeekdayToggle_weekend_spec initState 0 (Or.inl rfl)).1 (by decide)

/-- C5: after `toggleIncludeWeekends` turns weekends on, neither 0 nor 6 is in
`excludeWeekdays`; after it turns weekends off, both 0 and 6 are members and each
occurs at most once (set semantics, no duplicates). -/
theorem toggleIncludeWeekends_spec (s : BuilderState) :
    ((toggleIncludeWeekends s).includeWeekends = true →
      0 ∉ (toggleIncludeWeekends s).excludeWeekdays ∧
        6 ∉ (toggleIncludeWeekends s).excludeWeekdays) ∧
    ((toggleIncludeWeekends s).includeWeekends = false →
      0 ∈ (toggleIncludeWeekends s).excludeWeekdays ∧
        6 ∈ (toggleIncludeWeekends s).excludeWeekdays ∧
        (toggleIncludeWeekends s).excludeWeekdays.count 0 ≤ 1 ∧
        (toggleIncludeWeekends s).excludeWeekdays.count 6 ≤ 1) := by
  rcases hiw : s.includeWeekends with _ | _
  · simp only [toggleIncludeWeekends, applyEffectIfChanged, weekendEffect, hiw]
    constructor
    · intro _; simp [List.mem_filter]
    · intro h; simp at h
  · simp only [toggleIncludeWeekends, applyEffectIfChanged, weekendEffect, hiw]
    constructor
    · intro h; simp at h
    · intro _
      refine ⟨mem_jsSetDedup.mpr (by simp), mem_jsSetDedup.mpr (by simp), ?_, ?_⟩
      · exact List.nodup_iff_count_le_one.mp (by simp; exact nodup_jsSetDedup _) 0
      · exact List.nodup_iff_count_le_one.mp (by simp; exact nodup_jsSetDedup _) 6

/-- Witness for C5: toggling weekends on from the mounted state clears 0, and
toggling back off re-adds 0 at most once. -/
theorem toggleIncludeWeekends_spec_witness :
    0 ∉ (toggleIncludeWeekends initState).excludeWeekdays ∧
    0 ∈ (toggleIncludeWeekends (toggleIncludeWeekends initState)).excludeWeekdays := by
  constructor
  · exact ((toggleIncludeWeekends_spec initState).1 (by decide)).1
  · exact ((toggleIncludeWeekends_spec (toggleIncludeWeekends initState)).2 (by decide)).1

/-- C7: the date and weekday exclusion toggles never mutate the fetched schedule
index (nor the other request fields); a day can thus be present in the index and
marked excluded at once, as at the concrete loaded state. -/
theorem exclusionToggles_frame (s : BuilderState) (i : Nat) (dateStr : String) :
    ((handleWeekdayToggle s i).scheduledTasks = s.scheduledTasks ∧
      (handleWeekdayToggle s i).startDate = s.startDate ∧
      (handleWeekdayToggle s i).excludeDates = s.excludeDates ∧
      (handleWeekdayToggle s i).hoursPerDay = s.hoursPerDay ∧
      (handleWeekdayToggle s i).daysPerWeek = s.daysPerWeek ∧
      (handleWeekdayToggle s i).timezone = s.timezone) ∧
    ((handleDateClick s dateStr).scheduledTasks = s.scheduledTasks ∧
      (handleDateClick s dateStr).startDate = s.startDate ∧
      (handleDateClick s dateStr).includeWeekends = s.includeWeekends ∧
      (handleDateClick s dateStr).excludeWeekdays = s.excludeWeekdays ∧
      (handleDateClick s dateStr).hoursPerDay = s.hoursPerDay ∧
      (handleDateClick s dateStr).daysPerWeek = s.daysPerWeek ∧
      (handleDateClick s dateStr).timezone = s.timezone) ∧
    (("2025-01-06", sampleDay) ∈ (handleDateClick loadedState ("2025-01-06")).scheduledTasks ∧
      "2025-01-06" ∈ (handleDateClick loadedState ("2025-01-06")).excludeDates) := by
  refine ⟨?_, ?_, ?_⟩
  · simp only [handleWeekdayToggle, applyEffectIfChanged, weekendEffect]
    split <;> split <;> simp_all
  · simp [handleDateClick]
  · constructor
    · simp [handleDateClick, loadedState, rawInitState]
    · simp [handleDateClick, loadedState, rawInitState]

/-- C9: toggling one currently excluded weekend day while `includeWeekends` is off
removes BOTH weekday 0 and weekday 6 from `excludeWeekdays` (the forced
`includeWeekends = true` re-runs the weekend effect, stripping the other one too). -/
theorem reinclude_weekend_strips_both (s : BuilderState) (i : Nat)
    (hi : i = 0 ∨ i = 6) (hmem : i ∈ s.excludeWeekdays)
    (hoff : s.includeWeekends = false) :
    (handleWeekdayToggle s i).includeWeekends = true ∧
    0 ∉ (handleWeekdayToggle s i).excludeWeekdays ∧
    6 ∉ (handleWeekdayToggle s i).excludeWeekdays := by
  simp only [handleWeekdayToggle, applyEffectIfChanged, weekendEffect]
  simp only [if_pos (And.intro hmem hi), hoff]
  simp [List.mem_filter]

/-- Witness for C9 at the mounted state: clicking Sunday clears both weekend days. -/
theorem reinclude_weekend_strips_both_witness :
    (handleWeekdayToggle initState 0).includeWeekends = true ∧
    0 ∉ (handleWeekdayToggle initState 0).excludeWeekdays ∧
    6 ∉ (handleWeekdayToggle initState 0).excludeWeekdays :=
  reinclude_weekend_strips_both initState 0 (Or.inl rfl) (by decide) (by decide)

/-! ### Renderer theorems -/

theorem initialIndex_eq_of_eqMatch {days : List ScheduleDay} {today : String} {n : Nat}
    (h : jsFindIndex (fun d => decide (d.date = today)) days = (n : Int)) :
    initialIndex days today = n := by
  simp only [initialIndex, h]
  rw [if_neg (by omega : (n : Int) ≠ -1)]
  omega

theorem initialIndex_eq_of_gtMatch {days : List ScheduleDay} {today : String} {n : Nat}
    (h1 : jsFindIndex (fun d => decide (d.date = today)) days = -1)
    (h2 : jsFindIndex (fun d => decide (today < d.date)) days = (n : Int)) :
    initialIndex days today = n := by
  simp only [initialIndex, h1, h2, if_true]
  omega

theorem initialIndex_eq_zero_of_noMatch {days : List ScheduleDay} {today : String}
    (h1 : jsFindIndex (fun d => decide (d.date = today)) days = -1)
    (h2 : jsFindIndex (fun d => decide (today < d.date)) days = -1) :
    initialIndex days today = 0 := by
  simp only [initialIndex, h1, h2, if_true]
  omega

/-- C10: the saved-schedule load path sorts the fetched days ascending by their ISO
date strings before storing them: the stored list is a date-sorted permutation of
whatever order the backend returned. -/
theorem loadDays_sorted_perm (respDays : List ScheduleDay) :
    List.Pairwise (fun a b : ScheduleDay => a.date ≤ b.date) (loadDays respDays) ∧
    (loadDays respDays).Perm respDays := by
  constructor
  · have htrans : ∀ a b c : ScheduleDay,
        decide (a.date ≤ b.date) = true → decide (b.date ≤ c.date) = true →
          decide (a.date ≤ c.date) = true := by
      intro a b c hab hbc
      simp only [decide_eq_true_eq] at *
      exact le_trans hab hbc
    have htotal : ∀ a b : ScheduleDay,
        (decide (a.date ≤ b.date) || decide (b.date ≤ a.date)) = true := by
      intro a b
      simp [le_total]
    have h := List.sorted_mergeSort htrans htotal respDays
    simp only [loadDays]
    exact h.imp (fun hab => by simpa using hab)
  · exact List.mergeSort_perm respDays _

/-- C6: renderer navigation is clamped with no wraparound — the previous button at
index 0 and the next button at the last index are no-ops, and otherwise each moves
the selection by exactly one position. -/
theorem navigation_clamp (days : List ScheduleDay) (i : Nat) :
    prevClick 0 = 0 ∧
    (i = days.length - 1 → nextClick days i = i) ∧
    (0 < i → prevClick i = i - 1) ∧
    (i + 1 < days.length → nextClick days i = i + 1) := by
  refine ⟨by simp [prevClick, canPrev], ?_, ?_, ?_⟩
  · intro h
    have hc : ¬ ((i : Int) < max 0 ((days.length : Int) - 1)) := by
      rcases max_cases 0 ((days.length : Int) - 1) with ⟨heq, hle⟩ | ⟨heq, hlt⟩ <;>
        rw [heq] <;> omega
    simp [nextClick, canNext, hc]
  · intro h
    simp [prevClick, canPrev, h]
  · intro h
    have hc : (i : Int) < max 0 ((days.length : Int) - 1) := by
      rcases max_cases 0 ((days.length : Int) - 1) with ⟨heq, hle⟩ | ⟨heq, hlt⟩ <;>
        rw [heq] <;> omega
    simp [nextClick, canNext, hc]

/-- Witness for C6 on a concrete two-day list. -/
theorem navigation_clamp_witness :
    nextClick [sampleDay, sampleDay2] 1 = 1 ∧
    prevClick 1 = 0 ∧
    nextClick [sampleDay, sampleDay2] 0 = 1 :=
  ⟨(navigation_clamp [sampleDay, sampleDay2] 1).2.1 (by decide),
   (navigation_clamp [sampleDay, sampleDay2] 1).2.2.1 (by decide),
   (navigation_clamp [sampleDay, sampleDay2] 0).2.2.2 (by decide)⟩

theorem jsFindIndex_eq_neg_one {α : Type} {p : α → Bool} {l : List α}
    (h : ∀ x ∈ l, p x = false) : jsFindIndex p l = -1 := by
  rcases jsFindIndex_cases p l with ⟨h1, _⟩ | ⟨n, hn, hlt, hp, _⟩
  · exact h1
  · exact absurd (h _ (List.get_mem _ _ hlt))
      (by simp only [List.get_eq_getElem] at hp; simp [hp])

/-- C3: initial day selection — today's entry when present (with the list strictly
date-sorted it is the unique such index), else the first entry whose date is
strictly after today (the smallest such index), else index 0; the empty list yields
index 0, no current day, and the "No schedule" header. -/
theorem initialIndex_spec (days : List ScheduleDay) (today tomorrow : String)
    (hsorted : List.Pairwise (fun a b : ScheduleDay => a.date < b.date) days) :
    (days = [] → initialIndex days today = 0 ∧
      currentDayOf days (initialIndex days today) = none ∧
      headerLabel (currentDayOf days (initialIndex days today)) today tomorrow =
        HeaderLabel.noSchedule) ∧
    ((∃ d ∈ days, d.date = today) →
      ∃ hn : initialIndex days today < days.length,
        (days.get ⟨initialIndex days today, hn⟩).date = today ∧
        ∀ m (hm : m < days.length), (days.get ⟨m, hm⟩).date = today →
          m = initialIndex days today) ∧
    ((∀ d ∈ days, d.date ≠ today) → (∃ d ∈ days, today < d.date) →
      ∃ hn : initialIndex days today < days.length,
        today < (days.get ⟨initialIndex days today, hn⟩).date ∧
        ∀ m (hm : m < days.length), m < initialIndex days today →
          ¬ today < (days.get ⟨m, hm⟩).date) ∧
    ((∀ d ∈ days, d.date ≠ today ∧ ¬ today < d.date) →
      initialIndex days today = 0) := by
  refine ⟨?_, ?_, ?_, ?_⟩
  · rintro rfl
    refine ⟨?_, ?_, ?_⟩ <;> simp [initialIndex, jsFindIndex, currentDayOf, headerLabel]
  · intro hex
    rcases jsFindIndex_cases (fun d => decide (d.date = today)) days with
      ⟨hneg, hall⟩ | ⟨n, hn, hlt, hp, hmin⟩
    · exfalso
      rcases hex with ⟨d, hd, hdate⟩
      have := hall d hd
      simp [hdate] at this
    · rw [initialIndex_eq_of_eqMatch hn]
      refine ⟨hlt, by simpa using hp, ?_⟩
      intro m hm hdate
      by_contra hne
      rcases Nat.lt_or_ge m n with hlt' | hge
      · have hthis := hmin m hm hlt'
        rw [List.get_eq_getElem] at hdate
        simp [hdate] at hthis
      · have hgt : n < m := lt_of_le_of_ne hge (fun h => hne h.symm)
        have hs := (List.pairwise_iff_get.mp hsorted) ⟨n, hlt⟩ ⟨m, hm⟩ hgt
        rw [hdate] at hs
        have hp' : (days.get ⟨n, hlt⟩).date = today := by simpa using hp
        rw [hp'] at hs
        exact lt_irrefl _ hs
  · intro hnone hex
    have h1 : jsFindIndex (fun d => decide (d.date = today)) days = -1 :=
      jsFindIndex_eq_neg_one (fun d hd => by simp [hnone d hd])
    rcases jsFindIndex_cases (fun d => decide (today < d.date)) days with
      ⟨hneg, hall⟩ | ⟨n, hn, hlt, hp, hmin⟩
    · exfalso
      rcases hex with ⟨d, hd, hdate⟩
      have := hall d hd
      simp [hdate] at this
    · rw [initialIndex_eq_of_gtMatch h1 hn]
      refine ⟨hlt, of_decide_eq_true hp, ?_⟩
      intro m hm hmlt
      exact of_decide_eq_false (hmin m hm hmlt)
  · intro hnone
    exact initialIndex_eq_zero_of_noMatch
      (jsFindIndex_eq_neg_one (fun d hd => by simp [(hnone d hd).1]))
      (jsFindIndex_eq_neg_one (fun d hd => by simp [(hnone d hd).2]))

/-- Witness for C3 on the empty day list: index 0, no current day, "No schedule". -/
theorem initialIndex_spec_witness :
    initialIndex ([] : List ScheduleDay) "2025-01-06" = 0 ∧
    currentDayOf [] (initialIndex [] "2025-01-06") = none ∧
    headerLabel (currentDayOf [] (initialIndex [] "2025-01-06")) "2025-01-06" "2025-01-07" =
      HeaderLabel.noSchedule :=
  (initialIndex_spec [] "2025-01-06" "2025-01-07" List.Pairwise.nil).1 rfl

/-- C8: the Today, Tomorrow and Upcoming buttons select the matching entry (date
equal to today, date equal to tomorrow, or the first date strictly greater than
today), fall back to index 0 when no matching entry exists, and do nothing when the
day list is empty. -/
theorem jumpButtons_spec (days : List ScheduleDay) (i : Nat) (today tomorrow : String) :
    (days = [] → jumpToday days i today = i ∧ jumpTomorrow days i tomorrow = i ∧
      jumpUpcoming days i today = i) ∧
    ((∃ d ∈ days, d.date = today) →
      ∃ hn : jumpToday days i today < days.length,
        (days.get ⟨jumpToday days i today, hn⟩).date = today) ∧
    (days ≠ [] → (∀ d ∈ days, d.date ≠ today) → jumpToday days i today = 0) ∧
    ((∃ d ∈ days, d.date = tomorrow) →
      ∃ hn : jumpTomorrow days i tomorrow < days.length,
        (days.get ⟨jumpTomorrow days i tomorrow, hn⟩).date = tomorrow) ∧
    (days ≠ [] → (∀ d ∈ days, d.date ≠ tomorrow) → jumpTomorrow days i tomorrow = 0) ∧
    ((∃ d ∈ days, today < d.date) →
      ∃ hn : jumpUpcoming days i today < days.length,
        today < (days.get ⟨jumpUpcoming days i today, hn⟩).date ∧
        ∀ m (hm : m < days.length), m < jumpUpcoming days i today →
          ¬ today < (days.get ⟨m, hm⟩).date) ∧
    (days ≠ [] → (∀ d ∈ days, ¬ today < d.date) → jumpUpcoming days i today = 0) := by
  refine ⟨?_, ?_, ?_, ?_, ?_, ?_, ?_⟩
  · rintro rfl
    exact ⟨jsJump_empty _ _, jsJump_empty _ _, jsJump_empty _ _⟩
  · intro hex
    have hex' : ∃ d ∈ days, (fun d : ScheduleDay => decide (d.date = today)) d = true := by
      rcases hex with ⟨d, hd, he⟩; exact ⟨d, hd, by simp [he]⟩
    rcases jsJump_match i hex' with ⟨hn, hp, _⟩
    exact ⟨hn, by simpa using hp⟩
  · intro hne hall
    have hall' : ∀ d ∈ days, (fun d : ScheduleDay => decide (d.date = today)) d = false := by
      intro d hd; simp [hall d hd]
    rcases jsJump_nomatch i hall' with h | h
    · exact h
    · exact absurd h hne
  · intro hex
    have hex' : ∃ d ∈ days, (fun d : ScheduleDay => decide (d.date = tomorrow)) d = true := by
      rcases hex with ⟨d, hd, he⟩; exact ⟨d, hd, by simp [he]⟩
    rcases jsJump_match i hex' with ⟨hn, hp, _⟩
    exact ⟨hn, by simpa using hp⟩
  · intro hne hall
    have hall' : ∀ d ∈ days, (fun d : ScheduleDay => decide (d.date = tomorrow)) d = false := by
      intro d hd; simp [hall d hd]
    rcases jsJump_nomatch i hall' with h | h
    · exact h
    · exact absurd h hne
  · intro hex
    have hex' : ∃ d ∈ days, (fun d : ScheduleDay => decide (today < d.date)) d = true := by
      rcases hex with ⟨d, hd, he⟩; exact ⟨d, hd, by simp [he]⟩
    rcases jsJump_match i hex' with ⟨hn, hp, hmin⟩
    refine ⟨hn, of_decide_eq_true hp, ?_⟩
    intro m hm hmlt
    exact of_decide_eq_false (hmin m hm hmlt)
  · intro hne hall
    have hall' : ∀ d ∈ days, (fun d : ScheduleDay => decide (today < d.date)) d = false := by
      intro d hd; simp [hall d hd]
    rcases jsJump_nomatch i hall' with h | h
    · exact h
    · exact absurd h hne

/-- Witness for C8: the Today button is a no-op on the empty list, and falls back
to index 0 on a one-day list whose date is not today. -/
theorem jumpButtons_spec_witness :
    jumpToday ([] : List ScheduleDay) 5 "2025-01-06" = 5 ∧
    jumpToday [sampleDay] 5 "2025-01-07" = 0 := by
  constructor
  · exact ((jumpButtons_spec [] 5 "2025-01-06" "2025-01-07").1 rfl).1
  · refine (jumpButtons_spec [sampleDay] 5 "2025-01-07" "2025-01-08").2.2.1 (by simp) ?_
    intro d hd
    simp only [List.mem_singleton] at hd
    subst hd
    simp only [sampleDay]
    decide

end SensAI
